import Mathlib

/-!
Shallow embedding of the rebalance decision and simulation engine of the
Crypto_Portfolio_Rebalancer repository
(`src/agents/portfolio_rebalancer/tracker.py` and
`src/agents/portfolio_rebalancer/simulator.py`).

Python `float` values are modelled as exact rationals (`ℚ`); Python `dict`
maps from token symbols to numbers are modelled as association lists with
first-match lookup (Python dictionaries have unique keys, so the first match
is the only match), and `dict.get(k, 0.0)` becomes `dget m k`.
-/

namespace Rebalancer

/-- A Python `Dict[str, float]`, modelled as an association list. -/
abbrev Dict := List (String × ℚ)

/-- Model of `m.get(k, 0.0)`: first value bound to `k`, defaulting to `0`. -/
def dget (m : Dict) (k : String) : ℚ :=
  match m with
  | [] => 0
  | (k', v) :: rest => if k' = k then v else dget rest k

/-- Model of `tracker.compute_portfolio_value`: sum of `balances.get(t,0.0) * prices.get(t,0.0)`
over `set(balances) | set(prices)` (the union of the key sets). -/
def compute_portfolio_value (balances prices : Dict) : ℚ :=
  let tokens := (balances.map Prod.fst ++ prices.map Prod.fst).dedup
  (tokens.map fun t => dget balances t * dget prices t).sum

/-- Model of `tracker.current_allocations`: per-token allocation fraction for the
provided token list; all zero when the total portfolio value is `≤ 0`. -/
def current_allocations (balances prices : Dict) (tokens : List String) : Dict :=
  let total := compute_portfolio_value balances prices
  if total ≤ 0 then tokens.map fun t => (t, 0)
  else tokens.map fun t => (t, dget balances t * dget prices t / total)

/-- A trade proposal record emitted by `tracker.propose_rebalance_trades`. -/
structure Trade where
  token : String
  side : String
  amount : ℚ
  value_usd : ℚ
  target_allocation : ℚ
  current_allocation : ℚ
deriving Repr, DecidableEq

/-- Body of the `for t in tokens` loop of `tracker.propose_rebalance_trades`:
`none` models `continue`, `some` models appending a trade. -/
def propose_one (targets prices : Dict) (threshold_pct min_trade_usd total_value : ℚ)
    (curr_alloc : Dict) (t : String) : Option Trade :=
  let target := dget targets t
  let current := dget curr_alloc t
  let delta := target - current
  if total_value ≤ 0 then none
  else
    let desired_value_change := delta * total_value
    if |desired_value_change| < max min_trade_usd (threshold_pct / 100 * total_value) then none
    else
      let price := dget prices t
      if price ≤ 0 then none
      else
        some
          { token := t
            side := if delta > 0 then "buy" else "sell"
            amount := |desired_value_change| / price
            value_usd := |desired_value_change|
            target_allocation := target
            current_allocation := current }

/-- Model of `tracker.propose_rebalance_trades`: iterate over the target tokens
(`list(targets.keys())`, unique keys) collecting the emitted trades. -/
def propose_rebalance_trades (targets balances prices : Dict)
    (threshold_pct min_trade_usd : ℚ) : List Trade :=
  let tokens := (targets.map Prod.fst).dedup
  let curr_alloc := current_allocations balances prices tokens
  let total_value := compute_portfolio_value balances prices
  tokens.filterMap
    (propose_one targets prices threshold_pct min_trade_usd total_value curr_alloc)

/-- Model of `simulator.bps_to_fraction`: `max(bps / 10000.0, 0.0)`. -/
def bps_to_fraction (bps : ℚ) : ℚ :=
  max (bps / 10000) 0

/-- An input trade dictionary as consumed by the simulator; `side` is
`Option String` because `trade.get("side")` may be `None`. -/
structure TradeIn where
  token : String
  side : Option String
  amount : ℚ
deriving Repr, DecidableEq

/-- Model of `simulator.get_dex_quote`: side-aware slippage adjustment of the price;
the `dex` label is accepted but unused. -/
def get_dex_quote (dex : String) (token : String) (side : Option String)
    (amount price slippage_bps : ℚ) : ℚ :=
  let slip := bps_to_fraction slippage_bps
  if side = some "buy" then price * (1 + slip) else price * (1 - slip)

/-- A per-trade simulation result: buys carry `cost_usd`, everything else
carries `proceeds_usd` (the absent key is `none`). -/
structure TradeResult where
  token : String
  side : Option String
  amount : ℚ
  quoted_price : ℚ
  cost_usd : Option ℚ
  proceeds_usd : Option ℚ
deriving Repr, DecidableEq

/-- Model of `simulator.estimate_trade`. -/
def estimate_trade (trade : TradeIn) (price slippage_bps gas_cost_usd : ℚ)
    (dex : String) : TradeResult :=
  let side := trade.side
  let amount := trade.amount
  let quoted_price := get_dex_quote dex trade.token side amount price slippage_bps
  if side = some "buy" then
    { token := trade.token
      side := side
      amount := amount
      quoted_price := quoted_price
      cost_usd := some (amount * quoted_price + gas_cost_usd)
      proceeds_usd := none }
  else
    let proceeds_usd := amount * quoted_price - gas_cost_usd
    { token := trade.token
      side := side
      amount := amount
      quoted_price := quoted_price
      cost_usd := none
      proceeds_usd := some (if proceeds_usd < 0 then 0 else proceeds_usd) }

/-- The summary dictionary returned by `simulator.simulate_trades`. -/
structure Summary where
  total_buy_cost_usd : ℚ
  total_sell_proceeds_usd : ℚ
  net_usd_effect : ℚ
  est_total_gas_usd : ℚ
deriving Repr, DecidableEq

/-- The full return value of `simulator.simulate_trades`. -/
structure SimResult where
  trades : List TradeResult
  summary : Summary
deriving Repr, DecidableEq

/-- Body of the `for tr in trades` loop of `simulator.simulate_trades`:
the accumulator is `(results, total_buy_cost, total_sell_proceeds, total_gas_usd)`. -/
def simStep (prices : Dict) (slippage_bps gas_cost_usd : ℚ) (dex : String)
    (acc : List TradeResult × ℚ × ℚ × ℚ) (tr : TradeIn) :
    List TradeResult × ℚ × ℚ × ℚ :=
  let price := dget prices tr.token
  if price ≤ 0 then acc
  else
    let res := estimate_trade tr price slippage_bps gas_cost_usd dex
    if tr.side = some "buy" then
      (acc.1 ++ [res], acc.2.1 + res.cost_usd.getD 0, acc.2.2.1,
        acc.2.2.2 + gas_cost_usd)
    else
      (acc.1 ++ [res], acc.2.1, acc.2.2.1 + res.proceeds_usd.getD 0,
        acc.2.2.2 + gas_cost_usd)

/-- Model of `simulator.simulate_trades`. -/
def simulate_trades (trades : List TradeIn) (prices : Dict)
    (slippage_bps gas_cost_usd : ℚ) (dex : String) : SimResult :=
  let out := trades.foldl (simStep prices slippage_bps gas_cost_usd dex) ([], 0, 0, 0)
  { trades := out.1
    summary :=
      { total_buy_cost_usd := out.2.1
        total_sell_proceeds_usd := out.2.2.1
        net_usd_effect := out.2.2.1 - out.2.1
        est_total_gas_usd := out.2.2.2 } }

/- Sanity checks against the end-to-end scenario of the spec (§8):
targets ETH/USDC 0.5 each, balances ETH 1, prices ETH 2000, USDC 1. -/
example :
    propose_rebalance_trades [("ETH", 1/2), ("USDC", 1/2)]
      [("ETH", 1), ("USDC", 0)] [("ETH", 2000), ("USDC", 1)] (5/2) 100 =
      [⟨"ETH", "sell", 1/2, 1000, 1/2, 1⟩, ⟨"USDC", "buy", 1000, 1000, 1/2, 0⟩] := by
  norm_num +decide [propose_rebalance_trades, propose_one, current_allocations,
    compute_portfolio_value, dget, List.dedup_cons_of_mem, List.dedup_cons_of_not_mem,
    List.filterMap, abs]

example :
    (simulate_trades [⟨"ETH", some "sell", 1/2⟩, ⟨"USDC", some "buy", 1000⟩]
        [("ETH", 2000), ("USDC", 1)] 50 5 "uniswap_v2").summary =
      ⟨1010, 990, -20, 10⟩ := by
  norm_num +decide [simulate_trades, simStep, estimate_trade, get_dex_quote,
    bps_to_fraction, dget]

/-! ### Helper lemmas about `dget` and the embedded functions -/

lemma dget_nonneg (m : Dict) (hm : ∀ kv ∈ m, 0 ≤ kv.2) (t : String) : 0 ≤ dget m t := by
  induction m with
  | nil => simp [dget]
  | cons kv rest ih =>
    obtain ⟨k, v⟩ := kv
    simp only [dget]
    by_cases h : k = t
    · rw [if_pos h]
      exact hm (k, v) (List.mem_cons_self _ _)
    · rw [if_neg h]
      exact ih fun kv hkv => hm kv (List.mem_cons_of_mem _ hkv)

lemma dget_eq_zero_of_not_mem (m : Dict) (t : String) (h : t ∉ m.map Prod.fst) :
    dget m t = 0 := by
  induction m with
  | nil => simp [dget]
  | cons kv rest ih =>
    obtain ⟨k, v⟩ := kv
    simp only [List.map_cons, List.mem_cons] at h
    push_neg at h
    simp only [dget, if_neg (Ne.symm h.1)]
    exact ih h.2

lemma dget_map_mk (g : String → ℚ) (tokens : List String) (t : String) (ht : t ∈ tokens) :
    dget (tokens.map fun x => (x, g x)) t = g t := by
  induction tokens with
  | nil => cases ht
  | cons a rest ih =>
    simp only [List.map_cons, dget]
    by_cases h : a = t
    · rw [if_pos h, h]
    · rw [if_neg h]
      rcases List.mem_cons.mp ht with h1 | h1
      · exact absurd h1.symm h
      · exact ih h1

lemma propose_one_token (targets prices : Dict) (thr mtu total : ℚ) (curr : Dict)
    (u : String) (tr : Trade)
    (h : propose_one targets prices thr mtu total curr u = some tr) : tr.token = u := by
  simp only [propose_one] at h
  split_ifs at h <;>
    first
      | exact Option.noConfusion h
      | (obtain rfl := Option.some.inj h; rfl)

lemma propose_one_skip_of_price (targets prices : Dict) (thr mtu total : ℚ) (curr : Dict)
    (u : String) (hp : dget prices u ≤ 0) :
    propose_one targets prices thr mtu total curr u = none := by
  simp only [propose_one]
  split_ifs <;> simp_all

lemma simStep_skip (prices : Dict) (s g : ℚ) (d : String)
    (acc : List TradeResult × ℚ × ℚ × ℚ) (tr : TradeIn)
    (h : dget prices tr.token ≤ 0) : simStep prices s g d acc tr = acc := by
  simp [simStep, if_pos h]

/-! ### Claim theorems -/

/-- C2: whenever the total portfolio value computed from balances and prices is
`≤ 0`, `propose_rebalance_trades` returns the empty list and
`current_allocations` maps every requested token to exactly `0`. -/
theorem spec_C2 (targets balances prices : Dict) (thr mtu : ℚ) (tokens : List String)
    (h : compute_portfolio_value balances prices ≤ 0) :
    propose_rebalance_trades targets balances prices thr mtu = [] ∧
    ∀ t ∈ tokens, dget (current_allocations balances prices tokens) t = 0 := by
  constructor
  · simp only [propose_rebalance_trades]
    rw [List.filterMap_eq_nil_iff]
    intro u _
    simp [propose_one, if_pos h]
  · intro t ht
    simp only [current_allocations, if_pos h]
    exact dget_map_mk (fun _ => 0) tokens t ht

/-- C2 witness: a concrete portfolio with total value `-1`. -/
theorem spec_C2_witness :
    propose_rebalance_trades [("A", 1)] [("A", -1)] [("A", 1)] 1 1 = [] ∧
    dget (current_allocations [("A", -1)] [("A", 1)] ["A"]) "A" = 0 := by
  have hval : compute_portfolio_value [("A", -1)] [("A", 1)] ≤ 0 := by
    norm_num +decide [compute_portfolio_value, dget, List.dedup_cons_of_mem,
      List.dedup_cons_of_not_mem]
  exact ⟨(spec_C2 [("A", 1)] [("A", -1)] [("A", 1)] 1 1 ["A"] hval).1,
    (spec_C2 [("A", 1)] [("A", -1)] [("A", 1)] 1 1 ["A"] hval).2 "A" (by simp)⟩

/-- C8: the dex label is metadata only — two runs of `simulate_trades` that
differ only in the `dex` argument produce identical outputs. -/
theorem spec_C8 (trades : List TradeIn) (prices : Dict) (s g : ℚ) (d1 d2 : String) :
    simulate_trades trades prices s g d1 = simulate_trades trades prices s g d2 := by
  have hstep : simStep prices s g d1 = simStep prices s g d2 := by
    funext acc tr
    simp only [simStep, estimate_trade, get_dex_quote]
  simp only [simulate_trades, hstep]

/-- C3: a token with price `≤ 0` never receives a proposal, and an input trade
whose token has price `≤ 0` is dropped from the simulation entirely — removing
it from the input does not change any result or summary field. -/
theorem spec_C3 (targets balances prices : Dict) (thr mtu : ℚ) (t : String)
    (hp : dget prices t ≤ 0) (l1 l2 : List TradeIn) (tr : TradeIn)
    (htr : dget prices tr.token ≤ 0) (s g : ℚ) (d : String) :
    (∀ x ∈ propose_rebalance_trades targets balances prices thr mtu, x.token ≠ t) ∧
    simulate_trades (l1 ++ tr :: l2) prices s g d = simulate_trades (l1 ++ l2) prices s g d := by
  constructor
  · intro x hx
    simp only [propose_rebalance_trades, List.mem_filterMap] at hx
    obtain ⟨u, _, hu⟩ := hx
    have htok := propose_one_token _ _ _ _ _ _ _ _ hu
    intro hcontra
    rw [htok.symm.trans hcontra] at hu
    rw [propose_one_skip_of_price _ _ _ _ _ _ _ hp] at hu
    cases hu
  · simp only [simulate_trades, List.foldl_append, List.foldl_cons,
      simStep_skip prices s g d _ tr htr]

/-- C3 witness: a sell order on a token whose price is `0` is silently dropped. -/
theorem spec_C3_witness :
    dget [("A", 0)] "A" ≤ 0 ∧
    simulate_trades [⟨"A", some "sell", 1⟩] [("A", 0)] 50 5 "uniswap_v2" =
      simulate_trades [] [("A", 0)] 50 5 "uniswap_v2" :=
  ⟨by norm_num [dget],
    (spec_C3 [("A", 1)] [("A", 1)] [("A", 0)] 1 1 "A" (by norm_num [dget]) [] []
      ⟨"A", some "sell", 1⟩ (by norm_num [dget]) 50 5 "uniswap_v2").2⟩

/-- C1: with positive portfolio value, a target token with tradable price gets a
proposal exactly when the absolute desired value change clears the single
combined floor `max(minTradeUsd, thresholdPct/100 × portfolioValue)`. -/
theorem spec_C1 (targets balances prices : Dict) (thr mtu : ℚ) (t : String)
    (hV : 0 < compute_portfolio_value balances prices)
    (ht : t ∈ targets.map Prod.fst)
    (hp : 0 < dget prices t) :
    (∃ tr ∈ propose_rebalance_trades targets balances prices thr mtu, tr.token = t) ↔
      max mtu (thr / 100 * compute_portfolio_value balances prices) ≤
        |(dget targets t -
            dget (current_allocations balances prices ((targets.map Prod.fst).dedup)) t) *
          compute_portfolio_value balances prices| := by
  constructor
  · rintro ⟨tr, htr, htok⟩
    simp only [propose_rebalance_trades, List.mem_filterMap] at htr
    obtain ⟨u, _, hu⟩ := htr
    have hut := propose_one_token _ _ _ _ _ _ _ _ hu
    obtain rfl : u = t := hut.symm.trans htok
    simp only [propose_one] at hu
    split_ifs at hu with h1 h2 h3 <;>
      first
        | exact Option.noConfusion hu
        | exact not_lt.mp h2
  · intro h
    have hmem : t ∈ (targets.map Prod.fst).dedup := List.mem_dedup.mpr ht
    have hsome : ∃ tr0,
        propose_one targets prices thr mtu (compute_portfolio_value balances prices)
          (current_allocations balances prices ((targets.map Prod.fst).dedup)) t =
            some tr0 ∧ tr0.token = t := by
      simp only [propose_one]
      rw [if_neg (not_le.mpr hV), if_neg (not_lt.mpr h), if_neg (not_le.mpr hp)]
      exact ⟨_, rfl, rfl⟩
    obtain ⟨tr0, hs, htok⟩ := hsome
    refine ⟨tr0, ?_, htok⟩
    simp only [propose_rebalance_trades]
    exact List.mem_filterMap.mpr ⟨t, hmem, hs⟩

/-- C1 witness: a fully drifted single-target portfolio clears the floor and is
proposed. -/
theorem spec_C1_witness :
    "A" ∈ (propose_rebalance_trades [("A", 1)] [("B", 1)] [("A", 1), ("B", 1)]
        10 (1/2)).map Trade.token := by
  have h := (spec_C1 [("A", 1)] [("B", 1)] [("A", 1), ("B", 1)] 10 (1/2) "A"
    (by norm_num +decide [compute_portfolio_value, dget, List.dedup_cons_of_mem,
      List.dedup_cons_of_not_mem])
    (by simp)
    (by norm_num [dget])).mpr
    (by norm_num +decide [current_allocations, compute_portfolio_value, dget,
      List.dedup_cons_of_mem, List.dedup_cons_of_not_mem, abs_of_nonneg])
  obtain ⟨tr, hmem, htok⟩ := h
  exact List.mem_map.mpr ⟨tr, hmem, htok⟩

lemma propose_one_mono (targets prices : Dict) (thr1 thr2 mtu1 mtu2 total : ℚ)
    (curr : Dict) (t : String) (tr : Trade) (h1 : thr1 ≤ thr2) (h2 : mtu1 ≤ mtu2)
    (h : propose_one targets prices thr2 mtu2 total curr t = some tr) :
    propose_one targets prices thr1 mtu1 total curr t = some tr := by
  simp only [propose_one] at h ⊢
  by_cases hA : total ≤ 0
  · rw [if_pos hA] at h
    exact Option.noConfusion h
  rw [if_neg hA] at h ⊢
  by_cases hB : |(dget targets t - dget curr t) * total| < max mtu2 (thr2 / 100 * total)
  · rw [if_pos hB] at h
    exact Option.noConfusion h
  rw [if_neg hB] at h
  have htot : 0 < total := not_le.mp hA
  have hfloor : max mtu1 (thr1 / 100 * total) ≤ max mtu2 (thr2 / 100 * total) :=
    max_le_max h2 (mul_le_mul_of_nonneg_right (by linarith) htot.le)
  rw [if_neg (not_lt.mpr (le_trans hfloor (not_lt.mp hB)))]
  exact h

/-- C5: raising `thresholdPct` (or `minTradeUsd`), all else fixed, never adds a
token to the proposal set — the set at the higher threshold is a subset of the
set at the lower one. -/
theorem spec_C5 (targets balances prices : Dict) (thr mtu thr1 thr2 mtu1 mtu2 : ℚ)
    (h1 : thr1 ≤ thr2) (h2 : mtu1 ≤ mtu2) :
    (∀ t, t ∈ (propose_rebalance_trades targets balances prices thr2 mtu).map Trade.token →
        t ∈ (propose_rebalance_trades targets balances prices thr1 mtu).map Trade.token) ∧
    (∀ t, t ∈ (propose_rebalance_trades targets balances prices thr mtu2).map Trade.token →
        t ∈ (propose_rebalance_trades targets balances prices thr mtu1).map Trade.token) := by
  constructor
  · intro t hmem
    simp only [propose_rebalance_trades, List.mem_map, List.mem_filterMap] at hmem ⊢
    obtain ⟨tr, ⟨u, hu, hsome⟩, htok⟩ := hmem
    exact ⟨tr, ⟨u, hu, propose_one_mono _ _ _ _ _ _ _ _ _ _ h1 (le_refl mtu) hsome⟩, htok⟩
  · intro t hmem
    simp only [propose_rebalance_trades, List.mem_map, List.mem_filterMap] at hmem ⊢
    obtain ⟨tr, ⟨u, hu, hsome⟩, htok⟩ := hmem
    exact ⟨tr, ⟨u, hu, propose_one_mono _ _ _ _ _ _ _ _ _ _ (le_refl thr) h2 hsome⟩, htok⟩

/-- C5 witness: a token proposed at `thresholdPct = 50` is still proposed at
`thresholdPct = 10`. -/
theorem spec_C5_witness :
    "A" ∈ (propose_rebalance_trades [("A", 1)] [("B", 1)] [("A", 1), ("B", 1)]
        10 0).map Trade.token := by
  refine (spec_C5 [("A", 1)] [("B", 1)] [("A", 1), ("B", 1)] 0 0 10 50 0 0
      (by norm_num) (le_refl 0)).1 "A" ?_
  norm_num +decide [propose_rebalance_trades, propose_one, current_allocations,
    compute_portfolio_value, dget, List.dedup_cons_of_mem, List.dedup_cons_of_not_mem,
    List.filterMap, abs_of_nonneg]

/-- C7 counterexample: with `thresholdPct = 0` and `minTradeUsd = 0`, a token
sitting exactly at its target produces a proposal with `amount = 0` and
`value_usd = 0`, contradicting the claim that every proposal has
`amount > 0` and `value_usd > 0`. -/
theorem spec_C7_counterexample :
    propose_rebalance_trades [("A", 1/2)] [("A", 1), ("B", 1)] [("A", 1), ("B", 1)] 0 0 =
      [⟨"A", "sell", 0, 0, 1/2, 1/2⟩] := by
  norm_num +decide [propose_rebalance_trades, propose_one, current_allocations,
    compute_portfolio_value, dget, List.dedup_cons_of_mem, List.dedup_cons_of_not_mem,
    List.filterMap, abs_of_nonneg]

/-- C7 (amended): every proposal refers to a token with price `> 0` and has
`amount ≥ 0` and `value_usd ≥ 0`; whenever the combined floor
`max(minTradeUsd, thresholdPct/100 × portfolioValue)` is positive, every
proposal has `amount > 0` and `value_usd > 0`. -/
theorem spec_C7_amended (targets balances prices : Dict) (thr mtu : ℚ) (tr : Trade)
    (h : tr ∈ propose_rebalance_trades targets balances prices thr mtu) :
    0 < dget prices tr.token ∧ 0 ≤ tr.amount ∧ 0 ≤ tr.value_usd ∧
    (0 < max mtu (thr / 100 * compute_portfolio_value balances prices) →
      0 < tr.amount ∧ 0 < tr.value_usd) := by
  simp only [propose_rebalance_trades, List.mem_filterMap] at h
  obtain ⟨u, _, hu⟩ := h
  simp only [propose_one] at hu
  by_cases hA : compute_portfolio_value balances prices ≤ 0
  · rw [if_pos hA] at hu
    exact Option.noConfusion hu
  rw [if_neg hA] at hu
  by_cases hB : |(dget targets u -
      dget (current_allocations balances prices ((targets.map Prod.fst).dedup)) u) *
        compute_portfolio_value balances prices| <
      max mtu (thr / 100 * compute_portfolio_value balances prices)
  · rw [if_pos hB] at hu
    exact Option.noConfusion hu
  rw [if_neg hB] at hu
  by_cases hC : dget prices u ≤ 0
  · rw [if_pos hC] at hu
    exact Option.noConfusion hu
  rw [if_neg hC] at hu
  obtain rfl := Option.some.inj hu
  have hprice : 0 < dget prices u := not_le.mp hC
  refine ⟨hprice, div_nonneg (abs_nonneg _) hprice.le, abs_nonneg _, ?_⟩
  intro hfl
  have hpos : 0 < |(dget targets u -
      dget (current_allocations balances prices ((targets.map Prod.fst).dedup)) u) *
        compute_portfolio_value balances prices| :=
    lt_of_lt_of_le hfl (not_lt.mp hB)
  exact ⟨div_pos hpos hprice, hpos⟩

/-- C7 witness: with a positive combined floor, an emitted proposal has
positive amount and value. -/
theorem spec_C7_witness :
    0 < dget [("A", 1), ("B", 1)] (Trade.token ⟨"A", "buy", 1, 1, 1, 0⟩) ∧
    0 < Trade.amount ⟨"A", "buy", 1, 1, 1, 0⟩ ∧
    0 < Trade.value_usd ⟨"A", "buy", 1, 1, 1, 0⟩ := by
  have hmem : (⟨"A", "buy", 1, 1, 1, 0⟩ : Trade) ∈
      propose_rebalance_trades [("A", 1)] [("B", 1)] [("A", 1), ("B", 1)] 0 1 := by
    rw [show propose_rebalance_trades [("A", 1)] [("B", 1)] [("A", 1), ("B", 1)] 0 1 =
        [⟨"A", "buy", 1, 1, 1, 0⟩] from by
      norm_num +decide [propose_rebalance_trades, propose_one, current_allocations,
        compute_portfolio_value, dget, List.dedup_cons_of_mem, List.dedup_cons_of_not_mem,
        List.filterMap, abs_of_nonneg]]
    exact List.mem_singleton.mpr rfl
  have h := spec_C7_amended [("A", 1)] [("B", 1)] [("A", 1), ("B", 1)] 0 1
    ⟨"A", "buy", 1, 1, 1, 0⟩ hmem
  have hfl : 0 < max (1 : ℚ)
      (0 / 100 * compute_portfolio_value [("B", 1)] [("A", 1), ("B", 1)]) :=
    lt_max_iff.mpr (Or.inl one_pos)
  exact ⟨h.1, (h.2.2.2 hfl).1, (h.2.2.2 hfl).2⟩

lemma ite_lt_zero_eq_max (x : ℚ) : (if x < 0 then 0 else x) = max 0 x := by
  rcases lt_or_le x 0 with h | h
  · rw [if_pos h, max_eq_left h.le]
  · rw [if_neg (not_lt.mpr h), max_eq_right h]

lemma estimate_trade_buy (tr : TradeIn) (price s g : ℚ) (d : String)
    (hside : tr.side = some "buy") :
    estimate_trade tr price s g d =
      { token := tr.token
        side := tr.side
        amount := tr.amount
        quoted_price := price * (1 + bps_to_fraction s)
        cost_usd := some (tr.amount * (price * (1 + bps_to_fraction s)) + g)
        proceeds_usd := none } := by
  simp only [estimate_trade, get_dex_quote, if_pos hside]

lemma estimate_trade_sell (tr : TradeIn) (price s g : ℚ) (d : String)
    (hside : ¬ tr.side = some "buy") :
    estimate_trade tr price s g d =
      { token := tr.token
        side := tr.side
        amount := tr.amount
        quoted_price := price * (1 - bps_to_fraction s)
        cost_usd := none
        proceeds_usd := some (max 0 (tr.amount * (price * (1 - bps_to_fraction s)) - g)) } := by
  simp only [estimate_trade, get_dex_quote, if_neg hside, ite_lt_zero_eq_max]

/-- C4 counterexample: at `slippageBps = -10000` the code clamps the slippage
fraction to `0` and charges `cost_usd = 1`, while the claim's formula
`amount × price × (1 + slippageBps/10000) + gas` evaluates to `0`. -/
theorem spec_C4_counterexample :
    (estimate_trade ⟨"ETH", some "buy", 1⟩ 1 (-10000) 0 "uniswap_v2").cost_usd ≠
      some ((1 : ℚ) * 1 * (1 + (-10000 : ℚ) / 10000) + 0) ∧
    (estimate_trade ⟨"ETH", some "buy", 1⟩ 1 (-10000) 0 "uniswap_v2").cost_usd =
      some 1 := by
  have hslip : bps_to_fraction (-10000) = 0 := by
    rw [bps_to_fraction, max_eq_right (by norm_num : (-10000 : ℚ) / 10000 ≤ 0)]
  rw [estimate_trade_buy ⟨"ETH", some "buy", 1⟩ 1 (-10000) 0 "uniswap_v2" rfl, hslip]
  norm_num

/-- C4 (amended): for non-negative `slippageBps`, a simulated buy has
`cost_usd = amount × price × (1 + slippageBps/10000) + gas` and a simulated
sell has `proceeds_usd = max(0, amount × price × (1 − slippageBps/10000) − gas)`;
for negative `slippageBps` the fraction is clamped to `0` instead. -/
theorem spec_C4_amended (token : String) (amount price s g : ℚ) (d : String)
    (hp : 0 < price) (hs : 0 ≤ s) :
    (estimate_trade ⟨token, some "buy", amount⟩ price s g d).cost_usd =
      some (amount * price * (1 + s / 10000) + g) ∧
    (estimate_trade ⟨token, some "sell", amount⟩ price s g d).proceeds_usd =
      some (max 0 (amount * price * (1 - s / 10000) - g)) := by
  have hslip : bps_to_fraction s = s / 10000 :=
    max_eq_left (div_nonneg hs (by norm_num))
  constructor
  · rw [estimate_trade_buy ⟨token, some "buy", amount⟩ price s g d rfl, hslip]
    rw [show amount * (price * (1 + s / 10000)) + g =
      amount * price * (1 + s / 10000) + g from by ring]
  · rw [estimate_trade_sell ⟨token, some "sell", amount⟩ price s g d (by simp), hslip]
    rw [show amount * (price * (1 - s / 10000)) =
      amount * price * (1 - s / 10000) from by ring]

/-- C4 witness: a buy and a sell at `slippageBps = 50`, `gas = 5`. -/
theorem spec_C4_witness :
    (0 : ℚ) < 1000 ∧ (0 : ℚ) ≤ 50 ∧
    (estimate_trade ⟨"ETH", some "buy", 2⟩ 1000 50 5 "uniswap_v2").cost_usd =
      some (2 * 1000 * (1 + 50 / 10000) + 5) ∧
    (estimate_trade ⟨"ETH", some "sell", 2⟩ 1000 50 5 "uniswap_v2").proceeds_usd =
      some (max 0 (2 * 1000 * (1 - 50 / 10000) - 5)) := by
  have h := spec_C4_amended "ETH" 2 1000 50 5 "uniswap_v2" (by norm_num) (by norm_num)
  exact ⟨by norm_num, by norm_num, h.1, h.2⟩

lemma sum_map_div (l : List String) (f : String → ℚ) (c : ℚ) :
    (l.map fun t => f t / c).sum = (l.map f).sum / c := by
  induction l with
  | nil => simp
  | cons a r ih => simp [ih, add_div]

lemma sum_dom (f : String → ℚ) (l1 l2 : List String) (h1 : l1.Nodup) (h2 : l2.Nodup)
    (hf : ∀ x, 0 ≤ f x) (h0 : ∀ x ∈ l1, x ∉ l2 → f x = 0) :
    (l1.map f).sum ≤ (l2.map f).sum := by
  rw [← List.sum_toFinset f h1, ← List.sum_toFinset f h2]
  have hsub : ∑ x in l2.toFinset, f x = ∑ x in l1.toFinset ∪ l2.toFinset, f x :=
    Finset.sum_subset Finset.subset_union_right (by
      intro x hx hnx
      rcases Finset.mem_union.mp hx with hx1 | hx2
      · exact h0 x (List.mem_toFinset.mp hx1) fun hmem => hnx (List.mem_toFinset.mpr hmem)
      · exact absurd hx2 hnx)
  rw [hsub]
  exact Finset.sum_le_sum_of_subset_of_nonneg Finset.subset_union_left fun x _ _ => hf x

/-- C9: with non-negative balances and prices, the portfolio value is
non-negative, every allocation fraction lies in `[0, 1]`, and for a
duplicate-free token list the fractions sum to at most `1`. -/
theorem spec_C9 (balances prices : Dict) (tokens : List String)
    (hb : ∀ kv ∈ balances, 0 ≤ kv.2) (hp : ∀ kv ∈ prices, 0 ≤ kv.2)
    (hnd : tokens.Nodup) :
    0 ≤ compute_portfolio_value balances prices ∧
    (∀ kv ∈ current_allocations balances prices tokens, 0 ≤ kv.2 ∧ kv.2 ≤ 1) ∧
    ((current_allocations balances prices tokens).map Prod.snd).sum ≤ 1 := by
  have hf : ∀ x, 0 ≤ dget balances x * dget prices x := fun x =>
    mul_nonneg (dget_nonneg _ hb x) (dget_nonneg _ hp x)
  have hVdef : compute_portfolio_value balances prices =
      (((balances.map Prod.fst ++ prices.map Prod.fst).dedup).map
        fun x => dget balances x * dget prices x).sum := rfl
  have hzero : ∀ x, x ∉ (balances.map Prod.fst ++ prices.map Prod.fst).dedup →
      dget balances x * dget prices x = 0 := by
    intro x hx
    have hxb : x ∉ balances.map Prod.fst := fun hmem =>
      hx (List.mem_dedup.mpr (List.mem_append.mpr (Or.inl hmem)))
    rw [dget_eq_zero_of_not_mem _ _ hxb, zero_mul]
  have hVnn : 0 ≤ compute_portfolio_value balances prices := by
    rw [hVdef]
    apply List.sum_nonneg
    intro a ha
    obtain ⟨x, _, rfl⟩ := List.mem_map.mp ha
    exact hf x
  have hterm : ∀ x, dget balances x * dget prices x ≤
      compute_portfolio_value balances prices := by
    intro x
    rw [hVdef]
    have h := sum_dom (fun y => dget balances y * dget prices y) [x]
      ((balances.map Prod.fst ++ prices.map Prod.fst).dedup)
      (List.nodup_singleton x) (List.nodup_dedup _) hf
      (by
        intro y hy hny
        obtain rfl := List.mem_singleton.mp hy
        exact hzero y hny)
    simpa using h
  refine ⟨hVnn, ?_, ?_⟩
  · intro kv hkv
    by_cases htot : compute_portfolio_value balances prices ≤ 0
    · simp only [current_allocations, if_pos htot] at hkv
      obtain ⟨x, _, rfl⟩ := List.mem_map.mp hkv
      norm_num
    · simp only [current_allocations, if_neg htot] at hkv
      obtain ⟨x, _, rfl⟩ := List.mem_map.mp hkv
      have htot' : 0 < compute_portfolio_value balances prices := not_le.mp htot
      exact ⟨div_nonneg (hf x) htot'.le, (div_le_one htot').mpr (hterm x)⟩
  · by_cases htot : compute_portfolio_value balances prices ≤ 0
    · simp only [current_allocations, if_pos htot]
      rw [List.map_map]
      have hz : ((Prod.snd ∘ fun t => (t, (0 : ℚ))) <$> tokens).sum = 0 :=
        List.sum_eq_zero (by
          intro a ha
          obtain ⟨x, _, rfl⟩ := List.mem_map.mp ha
          rfl)
      rw [show List.map (Prod.snd ∘ fun t => (t, (0 : ℚ))) tokens =
        (Prod.snd ∘ fun t => (t, (0 : ℚ))) <$> tokens from rfl, hz]
      norm_num
    · have htot' : 0 < compute_portfolio_value balances prices := not_le.mp htot
      simp only [current_allocations, if_neg htot]
      rw [List.map_map]
      have hcomp : (Prod.snd ∘ fun t =>
          (t, dget balances t * dget prices t / compute_portfolio_value balances prices)) =
          fun t => dget balances t * dget prices t /
            compute_portfolio_value balances prices := rfl
      rw [hcomp, sum_map_div tokens
        (fun t => dget balances t * dget prices t)
        (compute_portfolio_value balances prices), div_le_one htot']
      rw [hVdef]
      exact sum_dom _ tokens _ hnd (List.nodup_dedup _) hf fun x _ hxk => hzero x hxk

/-- C9 witness: a two-token request over a one-token portfolio. -/
theorem spec_C9_witness :
    0 ≤ compute_portfolio_value [("A", 1)] [("A", 2)] ∧
    ((current_allocations [("A", 1)] [("A", 2)] ["A", "B"]).map Prod.snd).sum ≤ 1 := by
  have h := spec_C9 [("A", 1)] [("A", 2)] ["A", "B"]
    (by
      rintro kv hkv
      simp only [List.mem_singleton] at hkv
      subst hkv
      norm_num)
    (by
      rintro kv hkv
      simp only [List.mem_singleton] at hkv
      subst hkv
      norm_num)
    (by decide)
  exact ⟨h.1, h.2.2⟩

lemma estimate_trade_side (tr : TradeIn) (price s g : ℚ) (d : String) :
    (estimate_trade tr price s g d).side = tr.side := by
  simp only [estimate_trade]
  split_ifs <;> rfl

lemma simStep_keep_buy (prices : Dict) (s g : ℚ) (d : String)
    (acc : List TradeResult × ℚ × ℚ × ℚ) (tr : TradeIn)
    (hpr : ¬ dget prices tr.token ≤ 0) (hside : tr.side = some "buy") :
    simStep prices s g d acc tr =
      (acc.1 ++ [estimate_trade tr (dget prices tr.token) s g d],
       acc.2.1 + (estimate_trade tr (dget prices tr.token) s g d).cost_usd.getD 0,
       acc.2.2.1, acc.2.2.2 + g) := by
  simp only [simStep, if_neg hpr, if_pos hside]

lemma simStep_keep_sell (prices : Dict) (s g : ℚ) (d : String)
    (acc : List TradeResult × ℚ × ℚ × ℚ) (tr : TradeIn)
    (hpr : ¬ dget prices tr.token ≤ 0) (hside : ¬ tr.side = some "buy") :
    simStep prices s g d acc tr =
      (acc.1 ++ [estimate_trade tr (dget prices tr.token) s g d],
       acc.2.1,
       acc.2.2.1 + (estimate_trade tr (dget prices tr.token) s g d).proceeds_usd.getD 0,
       acc.2.2.2 + g) := by
  simp only [simStep, if_neg hpr, if_neg hside]

lemma foldl_simStep_shift (prices : Dict) (s g : ℚ) (d : String) (l : List TradeIn) :
    ∀ acc : List TradeResult × ℚ × ℚ × ℚ,
      l.foldl (simStep prices s g d) acc =
        (acc.1 ++ (l.foldl (simStep prices s g d) ([], 0, 0, 0)).1,
         acc.2.1 + (l.foldl (simStep prices s g d) ([], 0, 0, 0)).2.1,
         acc.2.2.1 + (l.foldl (simStep prices s g d) ([], 0, 0, 0)).2.2.1,
         acc.2.2.2 + (l.foldl (simStep prices s g d) ([], 0, 0, 0)).2.2.2) := by
  induction l with
  | nil =>
    intro acc
    obtain ⟨x1, x2, x3, x4⟩ := acc
    simp
  | cons a r ih =>
    intro acc
    rw [List.foldl_cons, List.foldl_cons, ih (simStep prices s g d acc a),
      ih (simStep prices s g d ([], 0, 0, 0) a)]
    by_cases h1 : dget prices a.token ≤ 0
    · rw [simStep_skip prices s g d acc a h1, simStep_skip prices s g d ([], 0, 0, 0) a h1]
      simp
    · by_cases h2 : a.side = some "buy"
      · rw [simStep_keep_buy prices s g d acc a h1 h2,
          simStep_keep_buy prices s g d ([], 0, 0, 0) a h1 h2]
        simp [add_assoc]
      · rw [simStep_keep_sell prices s g d acc a h1 h2,
          simStep_keep_sell prices s g d ([], 0, 0, 0) a h1 h2]
        simp [add_assoc]

lemma sim_loop_totals (prices : Dict) (s g : ℚ) (d : String) (trades : List TradeIn) :
    (trades.foldl (simStep prices s g d) ([], 0, 0, 0)).2.1 =
      (((trades.foldl (simStep prices s g d) ([], 0, 0, 0)).1.filter
          fun x => x.side = some "buy").map fun x => x.cost_usd.getD 0).sum ∧
    (trades.foldl (simStep prices s g d) ([], 0, 0, 0)).2.2.1 =
      (((trades.foldl (simStep prices s g d) ([], 0, 0, 0)).1.filter
          fun x => ¬ x.side = some "buy").map fun x => x.proceeds_usd.getD 0).sum ∧
    (trades.foldl (simStep prices s g d) ([], 0, 0, 0)).2.2.2 =
      g * (trades.filter fun tr => ¬ dget prices tr.token ≤ 0).length := by
  induction trades with
  | nil => simp
  | cons a r ih =>
    obtain ⟨ih1, ih2, ih3⟩ := ih
    rw [List.foldl_cons,
      foldl_simStep_shift prices s g d r (simStep prices s g d ([], 0, 0, 0) a)]
    by_cases h1 : dget prices a.token ≤ 0
    · rw [simStep_skip prices s g d ([], 0, 0, 0) a h1]
      refine ⟨?_, ?_, ?_⟩ <;>
        simp [ih1, ih2, ih3, List.filter_cons, h1, -Prod.mk_zero_zero]
    · by_cases h2 : a.side = some "buy"
      · rw [simStep_keep_buy prices s g d ([], 0, 0, 0) a h1 h2]
        refine ⟨?_, ?_, ?_⟩
        · simp [ih1, List.filter_cons, estimate_trade_side, h1, h2, -Prod.mk_zero_zero]
        · simp [ih2, List.filter_cons, estimate_trade_side, h1, h2, -Prod.mk_zero_zero]
        · simp [ih3, List.filter_cons, not_le.mp h1, -Prod.mk_zero_zero,
            mul_add, mul_one, add_comm]
      · rw [simStep_keep_sell prices s g d ([], 0, 0, 0) a h1 h2]
        refine ⟨?_, ?_, ?_⟩
        · simp [ih1, List.filter_cons, estimate_trade_side, h1, h2, -Prod.mk_zero_zero]
        · simp [ih2, List.filter_cons, estimate_trade_side, h1, h2, -Prod.mk_zero_zero]
        · simp [ih3, List.filter_cons, not_le.mp h1, -Prod.mk_zero_zero,
            mul_add, mul_one, add_comm]

/-- C6: the summary of `simulate_trades` aggregates exactly the per-trade
results — buy costs, sell proceeds, their difference, and gas times the
number of trades actually simulated (inputs minus those dropped for
price `≤ 0`). -/
theorem spec_C6 (trades : List TradeIn) (prices : Dict) (s g : ℚ) (d : String) :
    (simulate_trades trades prices s g d).summary.total_buy_cost_usd =
      (((simulate_trades trades prices s g d).trades.filter
          fun x => x.side = some "buy").map fun x => x.cost_usd.getD 0).sum ∧
    (simulate_trades trades prices s g d).summary.total_sell_proceeds_usd =
      (((simulate_trades trades prices s g d).trades.filter
          fun x => ¬ x.side = some "buy").map fun x => x.proceeds_usd.getD 0).sum ∧
    (simulate_trades trades prices s g d).summary.net_usd_effect =
      (simulate_trades trades prices s g d).summary.total_sell_proceeds_usd -
        (simulate_trades trades prices s g d).summary.total_buy_cost_usd ∧
    (simulate_trades trades prices s g d).summary.est_total_gas_usd =
      g * (trades.filter fun tr => ¬ dget prices tr.token ≤ 0).length := by
  obtain ⟨h1, h2, h3⟩ := sim_loop_totals prices s g d trades
  exact ⟨h1, h2, rfl, h3⟩

/-- C10: any trade whose side is not the exact string `"buy"` is treated as a
sell — quoted at `price × (1 − slip)`, given a `proceeds_usd` floored at `0`
and no `cost_usd`, and its proceeds are added to `total_sell_proceeds_usd`
while `total_buy_cost_usd` is unchanged. -/
theorem spec_C10 (trades : List TradeIn) (prices : Dict) (s g : ℚ) (d : String)
    (tr : TradeIn) (hside : ¬ tr.side = some "buy") (hpr : 0 < dget prices tr.token) :
    (estimate_trade tr (dget prices tr.token) s g d).quoted_price =
      dget prices tr.token * (1 - bps_to_fraction s) ∧
    (estimate_trade tr (dget prices tr.token) s g d).cost_usd = none ∧
    (estimate_trade tr (dget prices tr.token) s g d).proceeds_usd =
      some (max 0 (tr.amount * (dget prices tr.token * (1 - bps_to_fraction s)) - g)) ∧
    (simulate_trades (trades ++ [tr]) prices s g d).summary.total_sell_proceeds_usd =
      (simulate_trades trades prices s g d).summary.total_sell_proceeds_usd +
        max 0 (tr.amount * (dget prices tr.token * (1 - bps_to_fraction s)) - g) ∧
    (simulate_trades (trades ++ [tr]) prices s g d).summary.total_buy_cost_usd =
      (simulate_trades trades prices s g d).summary.total_buy_cost_usd := by
  have hns : ¬ dget prices tr.token ≤ 0 := not_le.mpr hpr
  have hest := estimate_trade_sell tr (dget prices tr.token) s g d hside
  refine ⟨by rw [hest], by rw [hest], by rw [hest], ?_, ?_⟩
  · simp only [simulate_trades, List.foldl_append, List.foldl_cons, List.foldl_nil]
    rw [simStep_keep_sell prices s g d _ tr hns hside, hest]
    simp
  · simp only [simulate_trades, List.foldl_append, List.foldl_cons, List.foldl_nil]
    rw [simStep_keep_sell prices s g d _ tr hns hside]

/-- C10 witness: a `"sell"`-sided trade appended to an empty batch adds its
floored proceeds to the sell total. -/
theorem spec_C10_witness :
    ¬ ((⟨"ETH", some "sell", 2⟩ : TradeIn).side = some "buy") ∧
    (0 : ℚ) < dget [("ETH", 100)] "ETH" ∧
    (simulate_trades ([] ++ [⟨"ETH", some "sell", 2⟩]) [("ETH", 100)] 0 5
        "uniswap_v2").summary.total_sell_proceeds_usd =
      (simulate_trades [] [("ETH", 100)] 0 5
          "uniswap_v2").summary.total_sell_proceeds_usd +
        max 0 ((2 : ℚ) * (dget [("ETH", 100)] "ETH" * (1 - bps_to_fraction 0)) - 5) := by
  have hpr : (0 : ℚ) < dget [("ETH", 100)] "ETH" := by norm_num [dget]
  have h := spec_C10 [] [("ETH", 100)] 0 5 "uniswap_v2" ⟨"ETH", some "sell", 2⟩
    (by simp) hpr
  exact ⟨by simp, hpr, h.2.2.2.1⟩

end Rebalancer
